import Mathlib

/-!
Verification of the microdata extraction core (parser.parse / parser.readItem
and helpers) of the namsral/microdata Go package, against its natural-language
specification.  The HTML node tree produced by the upstream HTML5 parser is
modelled as a rose tree of nodes; base-URL resolution (net/url, an upstream
collaborator) is modelled as an abstract resolver function, an argument of the
parser, exactly as the Go code only ever uses the base URL through
baseURL.Parse(s) followed by String().
-/

namespace Microdata

/-- Node types of the upstream HTML tree (golang.org/x/net/html NodeType).
Only TextNode is ever inspected by the extraction core. -/
inductive NType where
  | errorN
  | textN
  | documentN
  | elementN
  | commentN
  | doctypeN
deriving DecidableEq, Repr

/-- One key/value attribute pair of an element (html.Attribute). -/
structure Attr where
  key : String
  val : String
deriving DecidableEq, Repr

/-- The upstream html.Node, restricted to the fields the extraction core
reads: Type, DataAtom (element name; equals the tag for the standard
elements the code dispatches on), Data (text payload for text nodes),
Attr and the child list. -/
inductive Node where
  | mk (ntype : NType) (dataAtom : String) (ndata : String)
       (attrs : List Attr) (children : List Node)
deriving Repr

def Node.ntype : Node → NType
  | .mk t _ _ _ _ => t

def Node.dataAtom : Node → String
  | .mk _ a _ _ _ => a

def Node.ndata : Node → String
  | .mk _ _ d _ _ => d

def Node.attrs : Node → List Attr
  | .mk _ _ _ a _ => a

def Node.children : Node → List Node
  | .mk _ _ _ _ c => c

/-- Shorthand for an element node. -/
def elemN (tag : String) (attrs : List Attr) (children : List Node) : Node :=
  .mk .elementN tag tag attrs children

/-- Shorthand for a text node. -/
def txt (s : String) : Node :=
  .mk .textN "" s [] []

mutual
/-- The visit order of walkNodes: the node itself, then the subtrees of its
children left to right (document pre-order). -/
def preorder : Node → List Node
  | .mk t a d at_ cs => .mk t a d at_ cs :: preorderF cs

def preorderF : List Node → List Node
  | [] => []
  | c :: cs => preorder c ++ preorderF cs
end

/-- getAttr: the value of the first attribute with the given key, if any
(Go returns the zero value and false when absent, modelled by Option). -/
def getAttr (key : String) (node : Node) : Option String :=
  (node.attrs.find? (fun a => a.key == key)).map (fun a => a.val)

/-- strings.Split(s, " ") as the Go code uses it: split on every single
space, keeping empty fields; splitting the empty string yields one empty
field. -/
def splitSpace (s : String) : List String :=
  go s.data []
where
  go : List Char → List Char → List String
    | [], acc => [String.mk acc.reverse]
    | c :: cs, acc =>
      if c = ' ' then String.mk acc.reverse :: go cs [] else go cs (c :: acc)

/-- The text accumulation of the default value case: walkNodes over the
subtree writing the Data of every TextNode into a buffer. -/
def textContent (node : Node) : String :=
  (preorder node).foldl (fun acc n => if n.ntype = .textN then acc ++ n.ndata else acc) ""

/-- A member of a ValueList: a property value is either a string or a
(nested) Item; the Item variant carries the three Item fields inline. -/
inductive Value where
  | str (s : String)
  | item (types : List String) (properties : List (String × List Value)) (id : String)
deriving Repr

/-- The Item record: Types, Properties and Id.  Go's PropertyMap is a
map from property name to the ordered ValueList of that name; the map is
modelled as an association list (the Go map is unordered, and the code
only ever reads single keys, so the association-list refinement is
observationally faithful). -/
structure Item where
  types : List String
  properties : List (String × List Value)
  id : String
deriving Repr

/-- View an Item as a nested property value. -/
def Value.ofItem (i : Item) : Value :=
  .item i.types i.properties i.id

/-- NewItem: fresh Item with empty Types, empty Properties, zero-value Id. -/
def NewItem : Item :=
  ⟨[], [], ""⟩

/-- Properties[key] = append(Properties[key], value): appends to the
ValueList of the key, creating the entry when absent. -/
def addToMap : List (String × List Value) → String → Value → List (String × List Value)
  | [], key, v => [(key, [v])]
  | (k, vs) :: rest, key, v =>
    if k = key then (k, vs ++ [v]) :: rest else (k, vs) :: addToMap rest key v

/-- Item.addString. -/
def Item.addString (i : Item) (key value : String) : Item :=
  { i with properties := addToMap i.properties key (.str value) }

/-- Item.addItem. -/
def Item.addItem (i : Item) (key : String) (sub : Item) : Item :=
  { i with properties := addToMap i.properties key (.ofItem sub) }

/-- Item.addType. -/
def Item.addType (i : Item) (value : String) : Item :=
  { i with types := i.types ++ [value] }

/-- The ValueList recorded under a key (empty when the key is absent),
for stating claims about single properties. -/
def propVals (i : Item) (key : String) : List Value :=
  ((i.properties.find? (fun kv => kv.1 == key)).map (fun kv => kv.2)).getD []

/-- The read-only context of a parse run: the abstract base-URL resolver
(p.baseURL.Parse followed by String(), none on a parse error) and the
identifiedNodes index. -/
structure Ctx where
  resolve : String → Option String
  ids : List (String × Node)

/-- Go map assignment identifiedNodes[id] = n: overwrite when present,
append otherwise. -/
def insertId : List (String × Node) → String → Node → List (String × Node)
  | [], key, n => [(key, n)]
  | (k, m) :: rest, key, n =>
    if k = key then (key, n) :: rest else (k, m) :: insertId rest key n

/-- Go map lookup identifiedNodes[itemref]. -/
def lookupId (ids : List (String × Node)) (key : String) : Option Node :=
  (ids.find? (fun kv => kv.1 == key)).map (fun kv => kv.2)

/-- The switch on node.DataAtom in the non-scope property branch of
readItem: the extracted property value, as left in propValue
(the Go zero value "" when an expected attribute is missing or URL
resolution fails). -/
def valueOf (ctx : Ctx) (node : Node) : String :=
  if node.dataAtom == "meta" then
    (getAttr "content" node).getD ""
  else if node.dataAtom == "audio" || node.dataAtom == "embed" ||
      node.dataAtom == "iframe" || node.dataAtom == "img" ||
      node.dataAtom == "source" || node.dataAtom == "track" ||
      node.dataAtom == "video" then
    match getAttr "src" node with
    | some v => (ctx.resolve v).getD ""
    | none => ""
  else if node.dataAtom == "a" || node.dataAtom == "area" ||
      node.dataAtom == "link" then
    match getAttr "href" node with
    | some v => (ctx.resolve v).getD ""
    | none => ""
  else if node.dataAtom == "data" || node.dataAtom == "meter" then
    (getAttr "value" node).getD ""
  else if node.dataAtom == "time" then
    (getAttr "datetime" node).getD ""
  else
    textContent node

/-- The loop adding the sub-item under every non-empty itemprop token. -/
def addItemProps (item : Item) (itemprops : String) (sub : Item) : Item :=
  (splitSpace itemprops).foldl
    (fun it p => if p.length > 0 then it.addItem p sub else it) item

/-- The loop adding the string value under every non-empty itemprop token. -/
def addStringProps (item : Item) (itemprops : String) (value : String) : Item :=
  (splitSpace itemprops).foldl
    (fun it p => if p.length > 0 then it.addString p value else it) item

/-- One itemref token of an itemref loop: skip empty tokens, look the
token up in identifiedNodes, process the found node with the given
reader, silently skip unresolved tokens. -/
def refStep (ctx : Ctx) (reader : Item → Node → Option Item)
    (item : Item) (tok : String) : Option Item :=
  if tok.length > 0 then
    match lookupId ctx.ids tok with
    | some n => reader item n
    | none => some item
  else some item

/-- parser.readItem.  The fuel argument bounds the call depth (the Go
function is recursive with no structural bound once itemref jumps are
involved); none means the bound was hit.  For every terminating Go run a
sufficiently large fuel yields some of the same result. -/
def readItem (ctx : Ctx) : Nat → Item → Node → Option Item
  | 0, _, _ => none
  | fuel + 1, item, node =>
    match getAttr "itemprop" node with
    | some itemprops =>
      match getAttr "itemscope" node with
      | some _ =>
        let subRefs :=
          match getAttr "itemref" node with
          | some itemrefs =>
            (splitSpace itemrefs).foldlM (refStep ctx (readItem ctx fuel)) NewItem
          | none => some NewItem
        match subRefs with
        | none => none
        | some sub1 =>
          match node.children.foldlM (readItem ctx fuel) sub1 with
          | none => none
          | some sub2 => some (addItemProps item itemprops sub2)
      | none =>
        let propValue := valueOf ctx node
        let item1 :=
          if propValue.length > 0 then addStringProps item itemprops propValue
          else item
        node.children.foldlM (readItem ctx fuel) item1
    | none => node.children.foldlM (readItem ctx fuel) item

/-- The walkNodes pass of parser.parse: one pre-order sweep collecting
the nodes carrying both itemscope and itemtype (in that order) and
building the identifiedNodes index. -/
def scanStep (st : List Node × List (String × Node)) (n : Node) :
    List Node × List (String × Node) :=
  let st1 :=
    if (getAttr "itemscope" n).isSome then
      if (getAttr "itemtype" n).isSome then (st.1 ++ [n], st.2) else st
    else st
  match getAttr "id" n with
  | some idv => (st1.1, insertId st1.2 idv n)
  | none => st1

def scanTree (tree : Node) : List Node × List (String × Node) :=
  (preorder tree).foldl scanStep ([], [])

/-- The head of the loop body over toplevelNodes in parser.parse: the
fresh Item after the itemtype token loop and the itemid assignment,
before any property is read. -/
def topSeed (ctx : Ctx) (node : Node) : Item :=
  match getAttr "itemtype" node with
  | some s =>
    let it := (splitSpace s).foldl
      (fun (i : Item) (t : String) => if t.length > 0 then i.addType t else i)
      NewItem
    match getAttr "itemid" node with
    | some idv =>
      match ctx.resolve idv with
      | some u => { it with id := u }
      | none => it
    | none => it
  | none => NewItem

/-- The rest of the loop body over toplevelNodes in parser.parse: process
the itemref tokens of the node, then its children, populating the Item. -/
def buildTop (ctx : Ctx) (fuel : Nat) (node : Node) : Option Item :=
  let afterRefs :=
    match getAttr "itemref" node with
    | some s =>
      (splitSpace s).foldlM (refStep ctx (readItem ctx fuel)) (topSeed ctx node)
    | none => some (topSeed ctx node)
  match afterRefs with
  | none => none
  | some item2 => node.children.foldlM (readItem ctx fuel) item2

/-- parser.parse: one walkNodes sweep (top-level collection and id
index), then one Item per collected node, in collection order. -/
def parseMD (resolve : String → Option String) (fuel : Nat) (tree : Node) :
    Option (List Item) :=
  let st := scanTree tree
  st.1.mapM (buildTop ⟨resolve, st.2⟩ fuel)

/-- The pair parser.parse returns: the microdata together with the error
value, which the single return statement of parse fixes to nil. -/
def parseGo (resolve : String → Option String) (fuel : Nat) (tree : Node) :
    Option (List Item × Option String) :=
  (parseMD resolve fuel tree).map (fun items => (items, none))

/-! ### Specification-side definitions

These follow the wording of the specification (not the code); the claim
theorems compare them with the code embedding above. -/

/-- The valueOf table of the spec, section 4.3: first-match dispatch by
element kind; a missing expected attribute or a failed URL resolution
yields no value. -/
def specValueOf (ctx : Ctx) (n : Node) : Option String :=
  if n.dataAtom == "meta" then
    getAttr "content" n
  else if n.dataAtom == "audio" || n.dataAtom == "embed" ||
      n.dataAtom == "iframe" || n.dataAtom == "img" ||
      n.dataAtom == "source" || n.dataAtom == "track" ||
      n.dataAtom == "video" then
    (getAttr "src" n).bind ctx.resolve
  else if n.dataAtom == "a" || n.dataAtom == "area" ||
      n.dataAtom == "link" then
    (getAttr "href" n).bind ctx.resolve
  else if n.dataAtom == "data" || n.dataAtom == "meter" then
    (getAttr "value" n).bind (fun v => some v)
  else if n.dataAtom == "time" then
    (getAttr "datetime" n).bind (fun v => some v)
  else
    some (textContent n)

/-- The Types of the spec's buildItem step 1, as the code computes them
for a collected top-level node: space-split itemtype tokens, empty
tokens discarded, order preserved. -/
def typesFromNode (n : Node) : List String :=
  match getAttr "itemtype" n with
  | some s => (splitSpace s).filter (fun t => t.length > 0)
  | none => []

/-- The Id the code assigns to a collected top-level node: the resolved
itemid when present and resolvable, but only reached when an itemtype
attribute is present (the itemid block is nested inside the itemtype
block of parse). -/
def idFromNode (ctx : Ctx) (n : Node) : String :=
  match getAttr "itemtype" n with
  | some _ =>
    match getAttr "itemid" n with
    | some idv => (ctx.resolve idv).getD ""
    | none => ""
  | none => ""

/-- The top-level test as the claim states it: scope marker present and
property marker absent. -/
def claimTopLevel (n : Node) : Bool :=
  (getAttr "itemscope" n).isSome && !(getAttr "itemprop" n).isSome

/-- The top-level test the code applies inside walkNodes: scope marker
present and type attribute present. -/
def codeTopLevel (n : Node) : Bool :=
  (getAttr "itemscope" n).isSome && (getAttr "itemtype" n).isSome

/-! ### Deep well-formedness of nested property values

valOk holds of a property value when every Item occurring in it (at any
depth) has empty Types and empty Id: the shape of every sub-item the
code ever attaches. -/

mutual
def valOk : Value → Bool
  | .str _ => true
  | .item ts props idv => ts.isEmpty && (idv == "") && propsOk props

def propsOk : List (String × List Value) → Bool
  | [] => true
  | kv :: rest => valsOk kv.2 && propsOk rest

def valsOk : List Value → Bool
  | [] => true
  | v :: vs => valOk v && valsOk vs
end

/-- Remove every attribute with the given key from the node itself
(children untouched): used to state that a scope marker on a
property-less interior node does not influence the traversal. -/
def removeAttr (key : String) (n : Node) : Node :=
  .mk n.ntype n.dataAtom n.ndata (n.attrs.filter (fun a => a.key ≠ key)) n.children

/-- Deep well-formedness of one Item, the invariant of the C10 claim:
every sub-item in its properties, at any depth, has empty Types and Id. -/
def subOk (i : Item) : Prop :=
  propsOk i.properties = true

/-- Projection: the Types carried by a property value. -/
def valTypes : Value → List String
  | .str _ => []
  | .item ts _ _ => ts

/-! ### Concrete input documents for the counterexamples and witnesses -/

/-- A resolver that resolves every reference, prefixing it (stands for a
base URL against which every reference resolves). -/
def okResolve : String → Option String := fun s => some ("R:" ++ s)

/-- An element carrying itemscope and itemtype T and itemprop p, nested
inside an itemscope/itemtype scope: the claim says it never reaches the
top-level list. -/
def c1tree : Node :=
  elemN "div" [⟨"itemscope", ""⟩, ⟨"itemtype", "T"⟩]
    [elemN "div" [⟨"itemscope", ""⟩, ⟨"itemtype", "U"⟩, ⟨"itemprop", "p"⟩] []]

/-- A document whose single itemscope node carries neither itemtype nor
itemprop: the claim's scan would return it, the code's scan does not. -/
def c2tree : Node :=
  elemN "html" [] [elemN "div" [⟨"itemscope", ""⟩] []]

def c2node : Node :=
  elemN "div" [⟨"itemscope", ""⟩] []

/-- An unrelated interior scope (itemscope and itemtype, no itemprop)
whose descendant carries a property: the claim says the outer Item
receives nothing from it. -/
def c3tree : Node :=
  elemN "div" [⟨"itemscope", ""⟩, ⟨"itemtype", "T"⟩]
    [elemN "div" [⟨"itemscope", ""⟩, ⟨"itemtype", "U"⟩]
      [elemN "span" [⟨"itemprop", "p"⟩] [txt "x"]]]

/-- A nested scope carrying itemtype and itemid: the claim says the Item
built from it gets those Types and that Id. -/
def c4tree : Node :=
  elemN "div" [⟨"itemscope", ""⟩, ⟨"itemtype", "T"⟩]
    [elemN "div" [⟨"itemscope", ""⟩, ⟨"itemtype", "U"⟩,
        ⟨"itemid", "urn:x"⟩, ⟨"itemprop", "p"⟩] []]

/-- A meta node whose content attribute is the empty string: the claim
says the empty value is still emitted as a property. -/
def c5tree : Node :=
  elemN "div" [⟨"itemscope", ""⟩, ⟨"itemtype", "T"⟩]
    [elemN "meta" [⟨"itemprop", "x"⟩, ⟨"content", ""⟩] []]

/-- Reference list "b a" while the document order of the referenced
nodes is a before b: values must follow token order. -/
def c7tree : Node :=
  elemN "html" []
    [ elemN "div" [⟨"itemscope", ""⟩, ⟨"itemtype", "T"⟩, ⟨"itemref", "b a"⟩] []
    , elemN "span" [⟨"id", "a"⟩, ⟨"itemprop", "p"⟩] [txt "va"]
    , elemN "span" [⟨"id", "b"⟩, ⟨"itemprop", "p"⟩] [txt "vb"] ]

/-- The itemref cycle: the span is a property-bearing scope whose
itemref token x resolves to the div containing the span itself, so
readItem re-enters the same configuration forever. -/
def c8span : Node :=
  elemN "span" [⟨"itemscope", ""⟩, ⟨"itemprop", "p"⟩, ⟨"itemref", "x"⟩] []

def c8div : Node :=
  elemN "div" [⟨"id", "x"⟩] [c8span]

def c8tree : Node :=
  elemN "body" [⟨"itemscope", ""⟩, ⟨"itemtype", "T"⟩] [c8div]

def c8ctx : Ctx :=
  ⟨okResolve, [("x", c8div)]⟩

/-- A document exercising the omission paths: an unresolvable itemref
token, an empty token, and a property with a plain text value. -/
def c9tree : Node :=
  elemN "div" [⟨"itemscope", ""⟩, ⟨"itemtype", "T"⟩, ⟨"itemref", "nosuch "⟩]
    [elemN "span" [⟨"itemprop", "p"⟩] [txt "v"]]

/-- Two levels of property-bearing nested scopes carrying itemtype and
itemid attributes: every attached sub-item must come out empty. -/
def c10tree : Node :=
  elemN "div" [⟨"itemscope", ""⟩, ⟨"itemtype", "T"⟩]
    [elemN "div" [⟨"itemscope", ""⟩, ⟨"itemprop", "p"⟩, ⟨"itemtype", "U"⟩]
      [elemN "div" [⟨"itemscope", ""⟩, ⟨"itemprop", "q"⟩, ⟨"itemid", "urn:y"⟩]
        [elemN "span" [⟨"itemprop", "r"⟩] [txt "z"]]]]


/-- foldlM over Option preserves any invariant its step preserves. -/
theorem foldlM_pres {α : Type} (P : Item → Prop) (f : Item → α → Option Item)
    (hf : ∀ i a i', P i → f i a = some i' → P i') :
    ∀ (l : List α) (i i' : Item), P i → l.foldlM f i = some i' → P i' := by
  intro l
  induction l with
  | nil => intro i i' hP h; simp [List.foldlM_nil] at h; exact h ▸ hP
  | cons a l ih =>
    intro i i' hP h
    rw [List.foldlM_cons] at h
    cases hfa : f i a with
    | none => rw [hfa] at h; simp at h
    | some j => rw [hfa] at h; simp at h; exact ih j i' (hf i a j hP hfa) h

/-- refStep preserves any invariant its reader preserves. -/
theorem refStep_pres (P : Item → Prop) (ctx : Ctx) (reader : Item → Node → Option Item)
    (hr : ∀ i n i', P i → reader i n = some i' → P i') :
    ∀ (i : Item) (tok : String) (i' : Item), P i → refStep ctx reader i tok = some i' → P i' := by
  intro i tok i' hP h
  unfold refStep at h
  split at h
  · cases hl : lookupId ctx.ids tok with
    | none => rw [hl] at h; simp at h; exact h ▸ hP
    | some n => rw [hl] at h; simp at h; exact hr i n i' hP h
  · simp at h; exact h ▸ hP

theorem foldl_fields {f : Item → String → Item}
    (hf : ∀ i p, (f i p).types = i.types ∧ (f i p).id = i.id) :
    ∀ (l : List String) (i : Item),
      (l.foldl f i).types = i.types ∧ (l.foldl f i).id = i.id := by
  intro l
  induction l with
  | nil => intro i; simp
  | cons p l ih =>
    intro i
    rw [List.foldl_cons]
    exact ⟨((ih (f i p)).1).trans (hf i p).1, ((ih (f i p)).2).trans (hf i p).2⟩

theorem addStringProps_fields (i : Item) (ps v : String) :
    (addStringProps i ps v).types = i.types ∧ (addStringProps i ps v).id = i.id := by
  unfold addStringProps
  exact foldl_fields (fun i p => by split <;> simp [Item.addString]) _ i

theorem addItemProps_fields (i : Item) (ps : String) (sub : Item) :
    (addItemProps i ps sub).types = i.types ∧ (addItemProps i ps sub).id = i.id := by
  unfold addItemProps
  exact foldl_fields (fun i p => by split <;> simp [Item.addItem]) _ i


/-- readItem only ever touches the properties of the item it populates:
Types and Id pass through unchanged. -/
theorem readItem_fields (ctx : Ctx) :
    ∀ (fuel : Nat) (item : Item) (node : Node) (item' : Item),
      readItem ctx fuel item node = some item' →
      item'.types = item.types ∧ item'.id = item.id := by
  intro fuel
  induction fuel with
  | zero => intro item node item' h; simp [readItem] at h
  | succ fuel ih =>
    intro item node item' h
    rw [readItem] at h
    cases hp : getAttr "itemprop" node with
    | none =>
      rw [hp] at h
      exact foldlM_pres (fun j => j.types = item.types ∧ j.id = item.id)
        (readItem ctx fuel)
        (fun i a i' hP hf => by
          have := ih i a i' hf
          exact ⟨this.1.trans hP.1, this.2.trans hP.2⟩)
        node.children item item' ⟨rfl, rfl⟩ h
    | some itemprops =>
      rw [hp] at h
      cases hs : getAttr "itemscope" node with
      | some s =>
        rw [hs] at h
        simp only [] at h
        -- h : (match subRefs with ...) = some item'
        cases hr : (match getAttr "itemref" node with
          | some itemrefs =>
            (splitSpace itemrefs).foldlM (refStep ctx (readItem ctx fuel)) NewItem
          | none => some NewItem) with
        | none => rw [hr] at h; simp at h
        | some sub1 =>
          rw [hr] at h
          simp only [] at h
          cases hc : node.children.foldlM (readItem ctx fuel) sub1 with
          | none => rw [hc] at h; simp at h
          | some sub2 =>
            rw [hc] at h
            simp only [Option.some.injEq] at h
            subst h
            exact addItemProps_fields item itemprops sub2
      | none =>
        rw [hs] at h
        exact foldlM_pres (fun j => j.types = item.types ∧ j.id = item.id)
          (readItem ctx fuel)
          (fun i a i' hP hf => by
            have := ih i a i' hf
            exact ⟨this.1.trans hP.1, this.2.trans hP.2⟩)
          node.children _ item'
          (by
            split
            · exact ⟨(addStringProps_fields item itemprops _).1,
                (addStringProps_fields item itemprops _).2⟩
            · exact ⟨rfl, rfl⟩)
          h


theorem scanStep_fst (st : List Node × List (String × Node)) (n : Node) :
    (scanStep st n).1 = if codeTopLevel n then st.1 ++ [n] else st.1 := by
  unfold scanStep codeTopLevel
  cases hsc : (getAttr "itemscope" n).isSome <;>
    cases hty : (getAttr "itemtype" n).isSome <;>
      cases hid : getAttr "id" n <;> simp [hsc, hty, hid]

theorem scan_fst_general :
    ∀ (L : List Node) (p : List Node × List (String × Node)),
      ((L.foldl scanStep p).1 = p.1 ++ L.filter codeTopLevel) := by
  intro L
  induction L with
  | nil => intro p; simp
  | cons n L ih =>
    intro p
    rw [List.foldl_cons, List.filter_cons, ih (scanStep p n), scanStep_fst]
    cases hc : codeTopLevel n <;> simp

theorem scanTree_fst (tree : Node) :
    (scanTree tree).1 = (preorder tree).filter codeTopLevel := by
  unfold scanTree
  rw [scan_fst_general]
  simp


/-- An itemref token loop is the same as processing, in token order, the
nodes the non-empty tokens resolve to: empty and unresolved tokens
vanish. -/
theorem refsFold_eq (ctx : Ctx) (reader : Item → Node → Option Item) :
    ∀ (ts : List String) (item : Item),
      ts.foldlM (refStep ctx reader) item =
        ((ts.filter (fun t => t.length > 0)).filterMap
          (lookupId ctx.ids)).foldlM reader item := by
  intro ts
  induction ts with
  | nil => intro item; simp
  | cons t ts ih =>
    intro item
    rw [List.foldlM_cons]
    by_cases hl : t.length > 0
    · rw [List.filter_cons, if_pos (by simpa using hl), List.filterMap_cons]
      cases hres : lookupId ctx.ids t with
      | none =>
        rw [show refStep ctx reader item t = some item by
          unfold refStep; rw [if_pos hl, hres]]
        simp only [Option.bind_eq_bind, Option.some_bind]
        exact ih item
      | some n =>
        rw [show refStep ctx reader item t = reader item n by
          unfold refStep; rw [if_pos hl, hres]]
        rw [List.foldlM_cons]
        cases hr : reader item n with
        | none => simp
        | some j => simp only [Option.bind_eq_bind, Option.some_bind]; exact ih j
    · rw [List.filter_cons, if_neg (by simpa using hl)]
      rw [show refStep ctx reader item t = some item by
        unfold refStep; rw [if_neg hl]]
      simp only [Option.bind_eq_bind, Option.some_bind]
      exact ih item

theorem find_filter_ne (k key : String) (hne : k ≠ key) :
    ∀ (l : List Attr),
      (l.filter (fun a => a.key ≠ key)).find? (fun a => a.key == k) =
        l.find? (fun a => a.key == k) := by
  intro l
  induction l with
  | nil => simp
  | cons a l ih =>
    by_cases hk : a.key = key
    · rw [List.filter_cons, if_neg (by simp [hk])]
      rw [List.find?_cons_of_neg _ (by simp [hk]; exact fun h => hne (h ▸ rfl))]
      exact ih
    · rw [List.filter_cons, if_pos (by simpa using hk)]
      by_cases hak : a.key = k
      · rw [List.find?_cons_of_pos _ (by simp [hak]),
          List.find?_cons_of_pos _ (by simp [hak])]
      · rw [List.find?_cons_of_neg _ (by simp [hak]),
          List.find?_cons_of_neg _ (by simp [hak])]
        exact ih

theorem getAttr_removeAttr (k key : String) (n : Node) (hne : k ≠ key) :
    getAttr k (removeAttr key n) = getAttr k n := by
  unfold getAttr removeAttr
  rw [show (Node.mk n.ntype n.dataAtom n.ndata
    (n.attrs.filter (fun a => a.key ≠ key)) n.children).attrs
      = n.attrs.filter (fun a => a.key ≠ key) from rfl]
  rw [find_filter_ne k key hne n.attrs]


theorem valsOk_append (vs : List Value) (v : Value) :
    valsOk (vs ++ [v]) = (valsOk vs && valOk v) := by
  induction vs with
  | nil => simp [valsOk, valOk]
  | cons w ws ih => simp [valsOk, ih, Bool.and_assoc]

theorem addToMap_propsOk (m : List (String × List Value)) (k : String) (v : Value)
    (hm : propsOk m = true) (hv : valOk v = true) :
    propsOk (addToMap m k v) = true := by
  induction m with
  | nil => simp [addToMap, propsOk, valsOk, hv]
  | cons kv rest ih =>
    unfold addToMap
    rcases kv with ⟨k', vs⟩
    by_cases hk : k' = k
    · rw [if_pos hk]
      unfold propsOk at hm ⊢
      simp only [Bool.and_eq_true] at hm ⊢
      exact ⟨by rw [valsOk_append]; simp [hm.1, hv], hm.2⟩
    · rw [if_neg hk]
      unfold propsOk at hm ⊢
      simp only [Bool.and_eq_true] at hm ⊢
      exact ⟨hm.1, ih hm.2⟩

theorem addStringProps_propsOk (i : Item) (ps v : String)
    (h : propsOk i.properties = true) :
    propsOk (addStringProps i ps v).properties = true := by
  unfold addStringProps
  induction splitSpace ps generalizing i with
  | nil => simpa
  | cons p rest ih =>
    rw [List.foldl_cons]
    apply ih
    split
    · exact addToMap_propsOk i.properties p (.str v) h rfl
    · exact h

theorem addItemProps_propsOk (i : Item) (ps : String) (sub : Item)
    (h : propsOk i.properties = true)
    (hsub : sub.types = [] ∧ sub.id = "" ∧ propsOk sub.properties = true) :
    propsOk (addItemProps i ps sub).properties = true := by
  unfold addItemProps
  induction splitSpace ps generalizing i with
  | nil => simpa
  | cons p rest ih =>
    rw [List.foldl_cons]
    apply ih
    split
    · refine addToMap_propsOk i.properties p (.ofItem sub) h ?_
      unfold Value.ofItem valOk
      rw [hsub.1, hsub.2.1]
      simp [hsub.2.2]
    · exact h

/-- readItem preserves deep well-formedness of the populated item: every
sub-item it ever attaches has empty Types, empty Id, and recursively
well-formed properties. -/
theorem readItem_subOk (ctx : Ctx) :
    ∀ (fuel : Nat) (item : Item) (node : Node) (item' : Item),
      subOk item → readItem ctx fuel item node = some item' → subOk item' := by
  intro fuel
  induction fuel with
  | zero => intro item node item' _ h; simp [readItem] at h
  | succ fuel ih =>
    intro item node item' hOk h
    rw [readItem] at h
    cases hp : getAttr "itemprop" node with
    | none =>
      rw [hp] at h
      exact foldlM_pres subOk (readItem ctx fuel) (fun i a i' => ih i a i')
        node.children item item' hOk h
    | some itemprops =>
      rw [hp] at h
      cases hs : getAttr "itemscope" node with
      | some s =>
        rw [hs] at h
        simp only [] at h
        cases hr : (match getAttr "itemref" node with
          | some itemrefs =>
            (splitSpace itemrefs).foldlM (refStep ctx (readItem ctx fuel)) NewItem
          | none => some NewItem) with
        | none => rw [hr] at h; simp at h
        | some sub1 =>
          rw [hr] at h
          simp only [] at h
          cases hc : node.children.foldlM (readItem ctx fuel) sub1 with
          | none => rw [hc] at h; simp at h
          | some sub2 =>
            rw [hc] at h
            simp only [Option.some.injEq] at h
            subst h
            have hQstep : ∀ (i : Item) (n : Node) (i' : Item),
                (fun j => j.types = [] ∧ j.id = "" ∧ subOk j) i →
                readItem ctx fuel i n = some i' →
                (fun j => j.types = [] ∧ j.id = "" ∧ subOk j) i' := by
              intro i n i' hi hread
              have hf := readItem_fields ctx fuel i n i' hread
              exact ⟨hf.1.trans hi.1, hf.2.trans hi.2.1, ih i n i' hi.2.2 hread⟩
            have hsub1 : sub1.types = [] ∧ sub1.id = "" ∧ subOk sub1 := by
              revert hr
              cases hrf : getAttr "itemref" node with
              | some itemrefs =>
                intro hr
                exact foldlM_pres _ (refStep ctx (readItem ctx fuel))
                  (refStep_pres _ ctx (readItem ctx fuel) hQstep)
                  (splitSpace itemrefs) NewItem sub1 ⟨rfl, rfl, rfl⟩ hr
              | none =>
                intro hr
                simp only [Option.some.injEq] at hr
                subst hr
                exact ⟨rfl, rfl, rfl⟩
            have hsub2 : sub2.types = [] ∧ sub2.id = "" ∧ subOk sub2 :=
              foldlM_pres _ (readItem ctx fuel) hQstep
                node.children sub1 sub2 hsub1 hc
            exact addItemProps_propsOk item itemprops sub2 hOk
              ⟨hsub2.1, hsub2.2.1, hsub2.2.2⟩
      | none =>
        rw [hs] at h
        refine foldlM_pres subOk (readItem ctx fuel) (fun i a i' => ih i a i')
          node.children _ item' ?_ h
        split
        · exact addStringProps_propsOk item itemprops _ hOk
        · exact hOk


theorem foldl_addType (l : List String) :
    ∀ (i : Item),
      (l.foldl (fun i t => if t.length > 0 then i.addType t else i) i) =
        ⟨i.types ++ l.filter (fun t => t.length > 0), i.properties, i.id⟩ := by
  induction l with
  | nil => intro i; simp
  | cons t l ih =>
    intro i
    rw [List.foldl_cons, List.filter_cons]
    by_cases ht : t.length > 0
    · rw [if_pos (by simpa using ht), ih]
      simp [Item.addType, if_pos ht]
    · rw [if_neg (by simpa using ht), ih]
      simp [if_neg ht]

theorem topSeed_shape (ctx : Ctx) (node : Node) :
    (topSeed ctx node).types = typesFromNode node ∧
      (topSeed ctx node).id = idFromNode ctx node ∧
      (topSeed ctx node).properties = [] := by
  unfold topSeed typesFromNode idFromNode
  cases getAttr "itemtype" node with
  | none => exact ⟨rfl, rfl, rfl⟩
  | some s =>
    simp only []
    rw [foldl_addType]
    cases getAttr "itemid" node with
    | none => exact ⟨rfl, rfl, rfl⟩
    | some idv =>
      simp only []
      cases ctx.resolve idv with
      | none => exact ⟨rfl, rfl, rfl⟩
      | some u => exact ⟨rfl, rfl, rfl⟩

theorem buildTop_shape (ctx : Ctx) (fuel : Nat) (node : Node) (item' : Item)
    (h : buildTop ctx fuel node = some item') :
    item'.types = typesFromNode node ∧ item'.id = idFromNode ctx node ∧
      subOk item' := by
  unfold buildTop at h
  have hQstep : ∀ (i : Item) (n : Node) (i' : Item),
      (i.types = typesFromNode node ∧ i.id = idFromNode ctx node ∧ subOk i) →
      readItem ctx fuel i n = some i' →
      (i'.types = typesFromNode node ∧ i'.id = idFromNode ctx node ∧ subOk i') := by
    intro i n i' hi hread
    have hf := readItem_fields ctx fuel i n i' hread
    exact ⟨hf.1.trans hi.1, hf.2.trans hi.2.1,
      readItem_subOk ctx fuel i n i' hi.2.2 hread⟩
  have hseed := topSeed_shape ctx node
  have hP1 : (topSeed ctx node).types = typesFromNode node ∧
      (topSeed ctx node).id = idFromNode ctx node ∧ subOk (topSeed ctx node) :=
    ⟨hseed.1, hseed.2.1, by unfold subOk; rw [hseed.2.2]; rfl⟩
  revert h
  cases hrf : getAttr "itemref" node with
  | some s =>
    simp only []
    cases hfr : (splitSpace s).foldlM (refStep ctx (readItem ctx fuel))
        (topSeed ctx node) with
    | none => intro h; simp at h
    | some item2 =>
      intro h
      have hP2 := foldlM_pres _ (refStep ctx (readItem ctx fuel))
        (refStep_pres _ ctx (readItem ctx fuel) hQstep)
        (splitSpace s) (topSeed ctx node) item2 hP1 hfr
      exact foldlM_pres _ (readItem ctx fuel) hQstep
        node.children item2 item' hP2 h
  | none =>
    simp only []
    intro h
    exact foldlM_pres _ (readItem ctx fuel) hQstep
      node.children (topSeed ctx node) item' hP1 h

theorem mapM_all {α : Type} (f : α → Option Item) (Q : Item → Prop)
    (hf : ∀ a i, f a = some i → Q i) :
    ∀ (l : List α) (items : List Item), l.mapM f = some items →
      ∀ i ∈ items, Q i := by
  intro l
  induction l with
  | nil =>
    intro items h i hi
    rw [show ([] : List α).mapM f = some [] from rfl] at h
    simp only [Option.some.injEq] at h
    subst h
    simp at hi
  | cons a l ih =>
    intro items h i hi
    rw [List.mapM_cons] at h
    cases hfa : f a with
    | none => rw [hfa] at h; simp at h
    | some j =>
      rw [hfa] at h
      cases hl : l.mapM f with
      | none => rw [hl] at h; simp at h
      | some js =>
        rw [hl] at h
        simp at h
        subst h
        rcases List.mem_cons.mp hi with hij | hijs
        · exact hij ▸ hf a j hfa
        · exact ih js hl i hijs


/-- Its itemref token sends the property-bearing scope back into the div
that contains it: no recursion depth suffices. -/
theorem c8_loop : ∀ (fuel : Nat) (item : Item),
    readItem c8ctx fuel item c8div = none := by
  intro fuel
  induction fuel using Nat.strong_induction_on with
  | _ fuel ih =>
    match fuel with
    | 0 => intro item; rfl
    | f + 1 =>
      intro item
      rw [readItem, show getAttr "itemprop" c8div = none from rfl]
      show c8div.children.foldlM (readItem c8ctx f) item = none
      rw [show c8div.children = [c8span] from rfl, List.foldlM_cons]
      have hspan : readItem c8ctx f item c8span = none := by
        match f with
        | 0 => rfl
        | g + 1 =>
          have hstep : refStep c8ctx (readItem c8ctx g) NewItem "x" = none := by
            unfold refStep
            rw [if_pos (by decide),
              show lookupId c8ctx.ids "x" = some c8div from rfl]
            exact ih g (by omega) NewItem
          have hrefs : (splitSpace "x").foldlM
              (refStep c8ctx (readItem c8ctx g)) NewItem = none := by
            rw [show splitSpace "x" = ["x"] from rfl, List.foldlM_cons, hstep]
            rfl
          rw [readItem, show getAttr "itemprop" c8span = some "p" from rfl,
            show getAttr "itemscope" c8span = some "" from rfl]
          simp only []
          rw [show getAttr "itemref" c8span = some "x" from rfl]
          simp only []
          rw [hrefs]
      rw [hspan]
      rfl


/-- Claim C2 counterexample: on a document whose single itemscope node
carries neither itemprop nor itemtype, the top-level scan of parse
returns nothing, while the scan the claim describes (itemscope present,
itemprop absent) would return that node: the two differ. -/
theorem c2_counterexample :
    (scanTree c2tree).1.length = 0 ∧
      ((preorder c2tree).filter claimTopLevel).length = 1 ∧
      (scanTree c2tree).1 ≠ (preorder c2tree).filter claimTopLevel := by
  refine ⟨rfl, rfl, fun h => ?_⟩
  exact absurd (congrArg List.length h) (by decide)

/-- Claim C2 (amended): the top-level scan returns exactly those nodes
that carry the scope marker and also carry an itemtype attribute (it
never tests the property marker), listed in document pre-order; these
are the roots from which the top-level Items are built, in that order. -/
theorem c2_amended (tree : Node) :
    (scanTree tree).1 = (preorder tree).filter codeTopLevel :=
  scanTree_fst tree

/-- Claim C1 counterexample: a node carrying itemscope, itemtype and
itemprop, nested inside a scope, is recorded as a nested property value
of the outer Item and nevertheless yields a second, separately built
Item (with its Types) in the top-level Items list: parse returns two
top-level Items where the claim allows only one. -/
theorem c1_counterexample :
    parseMD okResolve 9 c1tree =
      some [⟨["T"], [("p", [.item [] [] ""])], ""⟩, ⟨["U"], [], ""⟩] ∧
      (parseMD okResolve 9 c1tree).map List.length ≠ some 1 :=
  ⟨rfl, by decide⟩

/-- Claim C1 (amended): a node carrying both the scope and the property
marker makes readItem attach a freshly built nested Item under its
property tokens and stop descending for the enclosing Item; but only
when such a node carries no itemtype attribute is it guaranteed absent
from the top-level scan, since the scan tests itemscope and itemtype
and ignores itemprop. -/
theorem c1_amended :
    (∀ (tree n : Node), getAttr "itemtype" n = none → n ∉ (scanTree tree).1) ∧
    (∀ (ctx : Ctx) (fuel : Nat) (item : Item) (node : Node) (ps s : String)
        (item' : Item),
      getAttr "itemprop" node = some ps → getAttr "itemscope" node = some s →
      readItem ctx (fuel + 1) item node = some item' →
      ∃ sub, item' = addItemProps item ps sub) := by
  constructor
  · intro tree n hty hmem
    rw [scanTree_fst] at hmem
    have := List.of_mem_filter hmem
    unfold codeTopLevel at this
    rw [hty] at this
    simp at this
  · intro ctx fuel item node ps s item' hp hs h
    rw [readItem, hp, hs] at h
    simp only [] at h
    cases hr : (match getAttr "itemref" node with
      | some itemrefs =>
        (splitSpace itemrefs).foldlM (refStep ctx (readItem ctx fuel)) NewItem
      | none => some NewItem) with
    | none => rw [hr] at h; simp at h
    | some sub1 =>
      rw [hr] at h
      simp only [] at h
      cases hc : node.children.foldlM (readItem ctx fuel) sub1 with
      | none => rw [hc] at h; simp at h
      | some sub2 =>
        rw [hc] at h
        simp only [Option.some.injEq] at h
        exact ⟨sub2, h.symm⟩

/-- Witness for the amended claim C1 at concrete inputs. -/
theorem c1_amended_witness :
    c2node ∉ (scanTree c2tree).1 ∧
      ∃ sub, (⟨[], [("p", [Value.item [] [] ""])], ""⟩ : Item) =
        addItemProps NewItem "p" sub :=
  ⟨c1_amended.1 c2tree c2node rfl,
    c1_amended.2 ⟨okResolve, []⟩ 1 NewItem
      (elemN "div" [⟨"itemscope", ""⟩, ⟨"itemtype", "U"⟩, ⟨"itemprop", "p"⟩] [])
      "p" "" ⟨[], [("p", [Value.item [] [] ""])], ""⟩ rfl rfl rfl⟩


/-- Claim C3 counterexample: an interior node carrying itemscope and
itemtype but no itemprop does not stop the descent: the property of its
descendant span lands in the outer Item as well, so both top-level
Items carry the property p, where the claim requires the outer one to
have none. -/
theorem c3_counterexample :
    parseMD okResolve 9 c3tree =
      some [⟨["T"], [("p", [.str "x"])], ""⟩, ⟨["U"], [("p", [.str "x"])], ""⟩] ∧
      (parseMD okResolve 9 c3tree).map
        (fun l => l.map (fun i => (propVals i "p").length)) ≠ some [0, 1] :=
  ⟨rfl, by decide⟩

/-- Claim C3 (amended): the depth-first descent of readItem never stops
at an interior node that carries the scope marker without the property
marker; at any node without itemprop the traversal behaves exactly as
if the scope marker were absent and descends into the children,
contributing their properties to the Item being built.  Only a node
carrying both markers ends the descent for the enclosing Item. -/
theorem c3_amended (ctx : Ctx) (fuel : Nat) (item : Item) (node : Node)
    (hp : getAttr "itemprop" node = none) :
    readItem ctx fuel item (removeAttr "itemscope" node) =
      readItem ctx fuel item node := by
  cases fuel with
  | zero => rfl
  | succ fuel =>
    rw [readItem, readItem, hp,
      (getAttr_removeAttr "itemprop" "itemscope" node (by decide)).trans hp]
    rfl

/-- Witness for the amended claim C3 at a concrete interior scope. -/
theorem c3_amended_witness :
    readItem ⟨okResolve, []⟩ 3 NewItem
        (removeAttr "itemscope" (elemN "div" [⟨"itemscope", ""⟩, ⟨"itemtype", "U"⟩]
          [elemN "span" [⟨"itemprop", "p"⟩] [txt "x"]])) =
      readItem ⟨okResolve, []⟩ 3 NewItem
        (elemN "div" [⟨"itemscope", ""⟩, ⟨"itemtype", "U"⟩]
          [elemN "span" [⟨"itemprop", "p"⟩] [txt "x"]]) :=
  c3_amended ⟨okResolve, []⟩ 3 NewItem _ rfl

/-- Claim C4 counterexample: a nested scope node carrying itemtype U
and an itemid yields a nested Item whose Types list is empty and whose
Id is empty; the claim requires Types equal to the itemtype tokens of
that node. -/
theorem c4_counterexample :
    parseMD okResolve 9 c4tree =
      some [⟨["T"], [("p", [.item [] [] ""])], ""⟩, ⟨["U"], [], "R:urn:x"⟩] ∧
      (parseMD okResolve 9 c4tree).map
        (fun l => l.map (fun i => (propVals i "p").map valTypes)) ≠
        some [[["U"]], []] :=
  ⟨rfl, by decide⟩

/-- Claim C4 (amended): for every node from which a top-level Item is
built, the Item Types equal the space-split tokens of the itemtype
attribute with empty tokens discarded, order preserved and duplicates
allowed, and the Id is the itemid resolved against the base URL when
the itemid is present and resolves (the itemid is only consulted when
an itemtype attribute is present).  Nested Items, by contrast, are
created empty regardless of the attributes of their node. -/
theorem c4_amended (ctx : Ctx) (fuel : Nat) (node : Node) (item' : Item)
    (h : buildTop ctx fuel node = some item') :
    item'.types = typesFromNode node ∧ item'.id = idFromNode ctx node :=
  ⟨(buildTop_shape ctx fuel node item' h).1, (buildTop_shape ctx fuel node item' h).2.1⟩

/-- Witness for the amended claim C4 at a concrete top-level node. -/
theorem c4_amended_witness :
    (⟨["T"], [("p", [Value.item [] [] ""])], ""⟩ : Item).types =
        typesFromNode c4tree ∧
      (⟨["T"], [("p", [Value.item [] [] ""])], ""⟩ : Item).id =
        idFromNode ⟨okResolve, (scanTree c4tree).2⟩ c4tree :=
  c4_amended ⟨okResolve, (scanTree c4tree).2⟩ 9 c4tree _ rfl

/-- Claim C5 counterexample: a meta node whose content attribute is the
empty string produces no property entry at all: parse returns an Item
with empty properties where the claim requires one entry under x. -/
theorem c5_counterexample :
    parseMD okResolve 9 c5tree = some [⟨["T"], [], ""⟩] ∧
      (parseMD okResolve 9 c5tree).map
        (fun l => l.map (fun i => (propVals i "x").length)) ≠ some [1] :=
  ⟨rfl, by decide⟩

/-- Claim C5 (amended): no empty value is ever emitted: a non-scope
property node adds its extracted value under its property tokens when
and only when the value has at least one character, whether the value
came from an attribute or from the default text extraction; otherwise
the node adds nothing and the descent simply continues. -/
theorem c5_amended (ctx : Ctx) (fuel : Nat) (item : Item) (node : Node)
    (ps : String) (hp : getAttr "itemprop" node = some ps)
    (hs : getAttr "itemscope" node = none) :
    readItem ctx (fuel + 1) item node =
      node.children.foldlM (readItem ctx fuel)
        (if (valueOf ctx node).length > 0 then addStringProps item ps (valueOf ctx node)
         else item) := by
  rw [readItem, hp, hs]

/-- Witness for the amended claim C5 at a concrete meta node with an
empty content attribute. -/
theorem c5_amended_witness :
    readItem ⟨okResolve, []⟩ 3 NewItem
        (elemN "meta" [⟨"itemprop", "x"⟩, ⟨"content", ""⟩] []) =
      (elemN "meta" [⟨"itemprop", "x"⟩, ⟨"content", ""⟩] []).children.foldlM
        (readItem ⟨okResolve, []⟩ 2)
        (if (valueOf ⟨okResolve, []⟩
              (elemN "meta" [⟨"itemprop", "x"⟩, ⟨"content", ""⟩] [])).length > 0
         then addStringProps NewItem "x"
            (valueOf ⟨okResolve, []⟩
              (elemN "meta" [⟨"itemprop", "x"⟩, ⟨"content", ""⟩] []))
         else NewItem) :=
  c5_amended ⟨okResolve, []⟩ 2 NewItem _ "x" rfl rfl


/-- Claim C6: for a property-bearing node that is not itself a scope,
the extracted string value follows the first-match dispatch on element
kind of the specification table: meta takes content; audio, embed,
iframe, img, source, track and video take src resolved against the
base; a, area and link take href resolved against the base; data and
meter take value; time takes datetime; anything else takes the
document-order concatenation of descendant text; missing attributes and
failed URL resolutions produce no value (the code represents no value
as the empty string, which it never emits). -/
theorem c6_valueOf (ctx : Ctx) (n : Node) :
    valueOf ctx n = (specValueOf ctx n).getD "" := by
  unfold valueOf specValueOf
  by_cases h1 : (n.dataAtom == "meta") = true
  · simp only [if_pos h1]
  · simp only [if_neg h1]
    by_cases h2 : (n.dataAtom == "audio" || n.dataAtom == "embed" ||
        n.dataAtom == "iframe" || n.dataAtom == "img" ||
        n.dataAtom == "source" || n.dataAtom == "track" ||
        n.dataAtom == "video") = true
    · simp only [if_pos h2]
      cases getAttr "src" n with
      | none => rfl
      | some v => cases ctx.resolve v <;> rfl
    · simp only [if_neg h2]
      by_cases h3 : (n.dataAtom == "a" || n.dataAtom == "area" ||
          n.dataAtom == "link") = true
      · simp only [if_pos h3]
        cases getAttr "href" n with
        | none => rfl
        | some v => cases ctx.resolve v <;> rfl
      · simp only [if_neg h3]
        by_cases h4 : (n.dataAtom == "data" || n.dataAtom == "meter") = true
        · simp only [if_pos h4]
          cases getAttr "value" n <;> rfl
        · simp only [if_neg h4]
          by_cases h5 : (n.dataAtom == "time") = true
          · simp only [if_pos h5]
            cases getAttr "datetime" n <;> rfl
          · simp only [if_neg h5]
            rfl

/-- Claim C7: an itemref token list is processed in the order the
tokens appear in the attribute: the loop is equal to processing, in
token order, exactly the nodes the non-empty tokens resolve to in the
id index, with unresolved and empty tokens ignored; consequently (shown
on a concrete document whose referenced nodes appear in the opposite
document order) the resulting property values follow token order,
independent of document position. -/
theorem c7_itemref :
    (∀ (ctx : Ctx) (reader : Item → Node → Option Item) (ts : List String)
        (item : Item),
      ts.foldlM (refStep ctx reader) item =
        ((ts.filter (fun t => t.length > 0)).filterMap
          (lookupId ctx.ids)).foldlM reader item) ∧
    parseMD okResolve 9 c7tree =
      some [⟨["T"], [("p", [.str "vb", .str "va"])], ""⟩] :=
  ⟨fun ctx reader ts item => refsFold_eq ctx reader ts item, rfl⟩

/-- Claim C8 fails on the code: when the itemref of a property-bearing
nested scope resolves to a node containing that scope, readItem
re-enters the same configuration at every recursion depth, so no fuel
(call-depth bound) ever suffices: parse diverges instead of
terminating. -/
theorem c8_nontermination (fuel : Nat) :
    parseMD okResolve fuel c8tree = none := by
  show (scanTree c8tree).1.mapM (buildTop ⟨okResolve, (scanTree c8tree).2⟩ fuel) = none
  rw [show (scanTree c8tree).1 = [c8tree] from rfl]
  rw [show (⟨okResolve, (scanTree c8tree).2⟩ : Ctx) = c8ctx from rfl]
  rw [List.mapM_cons]
  have hb : buildTop c8ctx fuel c8tree = none := by
    unfold buildTop
    rw [show getAttr "itemref" c8tree = none from rfl]
    simp only []
    rw [show c8tree.children = [c8div] from rfl, List.foldlM_cons,
      c8_loop fuel (topSeed c8ctx c8tree)]
    rfl
  rw [hb]
  rfl


theorem noResolve_filterMap (ids : List (String × Node)) :
    ∀ (ts : List String),
      (∀ t ∈ ts, t.length = 0 ∨ (lookupId ids t).isNone = true) →
      (ts.filter (fun t => t.length > 0)).filterMap (lookupId ids) = [] := by
  intro ts
  induction ts with
  | nil => intro _; rfl
  | cons t ts ih =>
    intro h
    rw [List.filter_cons]
    rcases h t (List.mem_cons_self t ts) with h0 | hnone
    · rw [if_neg (by simp [h0])]
      exact ih (fun u hu => h u (List.mem_cons_of_mem t hu))
    · by_cases hl : t.length > 0
      · rw [if_pos (by simpa using hl), List.filterMap_cons,
          Option.isNone_iff_eq_none.mp hnone]
        exact ih (fun u hu => h u (List.mem_cons_of_mem t hu))
      · rw [if_neg (by simpa using hl)]
        exact ih (fun u hu => h u (List.mem_cons_of_mem t hu))

/-- Claim C9: the core traversal never fails: whenever parse returns,
its error component is nil, and malformed reference lists (empty or
unresolvable tokens) degrade to omission: a reference loop whose tokens
all fail to resolve or are empty returns the item unchanged rather than
aborting; a document with an unresolvable itemref token, an empty
token, and ordinary properties still parses successfully. -/
theorem c9_degrades :
    (∀ (r : String → Option String) (fuel : Nat) (tree : Node)
        (md : List Item) (e : Option String),
      parseGo r fuel tree = some (md, e) → e = none) ∧
    (∀ (ctx : Ctx) (fuel : Nat) (item : Item) (ts : List String),
      (∀ t ∈ ts, t.length = 0 ∨ (lookupId ctx.ids t).isNone = true) →
      ts.foldlM (refStep ctx (readItem ctx fuel)) item = some item) ∧
    parseMD okResolve 9 c9tree = some [⟨["T"], [("p", [.str "v"])], ""⟩] := by
  refine ⟨?_, ?_, rfl⟩
  · intro r fuel tree md e h
    unfold parseGo at h
    cases hp : parseMD r fuel tree with
    | none => rw [hp] at h; simp at h
    | some l =>
      rw [hp] at h
      have h' : some (l, (none : Option String)) = some (md, e) := h
      cases Option.some.inj h'
      rfl
  · intro ctx fuel item ts h
    rw [refsFold_eq, noResolve_filterMap ctx.ids ts h]
    rfl

/-- Witness for claim C9 at concrete inputs. -/
theorem c9_degrades_witness :
    ((none : Option String) = none) ∧
      (["nosuch", ""].foldlM
        (refStep ⟨okResolve, []⟩ (readItem ⟨okResolve, []⟩ 3)) NewItem = some NewItem) :=
  ⟨c9_degrades.1 okResolve 9 c9tree [⟨["T"], [("p", [.str "v"])], ""⟩] none rfl,
    c9_degrades.2.1 ⟨okResolve, []⟩ 3 NewItem ["nosuch", ""] (by decide)⟩

/-- Claim C10: every Item attached as a nested property value, at any
depth of any Item parse returns, has an empty Types list and an empty
Id, regardless of itemtype or itemid attributes on its node: readItem
builds every sub-item from NewItem and never fills those fields. -/
theorem c10_nested_empty (r : String → Option String) (fuel : Nat) (tree : Node)
    (items : List Item) (h : parseMD r fuel tree = some items) :
    ∀ i ∈ items, propsOk i.properties = true := by
  unfold parseMD at h
  exact mapM_all _ (fun i => propsOk i.properties = true)
    (fun a i hf => (buildTop_shape _ fuel a i hf).2.2) (scanTree tree).1 items h

/-- Witness for claim C10 on a concrete document with two levels of
nested property scopes carrying itemtype and itemid attributes. -/
theorem c10_nested_empty_witness :
    propsOk (⟨["T"],
      [("p", [Value.item [] [("q", [Value.item [] [("r", [Value.str "z"])] ""])] ""])],
      ""⟩ : Item).properties = true :=
  c10_nested_empty okResolve 9 c10tree
    [⟨["T"],
      [("p", [Value.item [] [("q", [Value.item [] [("r", [Value.str "z"])] ""])] ""])],
      ""⟩,
     ⟨["U"], [("q", [Value.item [] [("r", [Value.str "z"])] ""])], ""⟩]
    rfl _ (List.mem_cons_self _ _)

end Microdata
